import Mathlib

/-!
Verification development for the broadcast subsystem of `src/bot.py`
(Telegram ID bot).  The Python functions are shallowly embedded as pure
Lean functions: the SQLite tables become lists, the per-recipient
`try/except` of `_do_broadcast` becomes a fold over the recipient
snapshot with an explicit delivery oracle, and the side effects of the
loop (log lines, `time.sleep` pacing calls) are recorded as explicit
event lists.
-/

namespace TGBot

/-- Column names of the `broadcasts` table, from the `CREATE TABLE`
statement in `init_db` (src/bot.py lines 88-96).  Note there is no
status column. -/
def broadcastsColumns : List String := ["id", "ts", "from_user", "text", "sent_count"]

/-- One row of the `broadcasts` table (the job ledger). -/
structure BroadcastRow where
  id : Nat
  ts : Int
  from_user : Int
  text : String
  sent_count : Nat
deriving DecidableEq

/-- The parts of the SQLite database that the broadcast code touches:
the `user_id` column of `users` (in `SELECT` order), the `broadcasts`
table, and the AUTOINCREMENT counter that supplies `cur.lastrowid` for
the next insert into `broadcasts` (it starts at 1). -/
structure DBState where
  users : List Int
  broadcasts : List BroadcastRow
  nextBroadcastId : Nat
deriving DecidableEq

/-- The concrete owner id from src/bot.py line 48. -/
def owner_id_val : Int := 8116152355

/-- `OWNER_ID: Optional[int] = 8116152355` (src/bot.py line 48). -/
def OWNER_ID : Option Int := some owner_id_val

/-- `BROADCAST_DELAY_SEC = 0.12` (src/bot.py line 52), as an exact
rational number of seconds. -/
def BROADCAST_DELAY_SEC : ℚ := 12 / 100

/-- `add_admin` (src/bot.py lines 152-156): `INSERT OR REPLACE` into
`admins`, keyed by `user_id`; a conflicting row is deleted and the new
row appended.  The table is modelled by its `user_id` column. -/
def add_admin (admins : List Int) (user_id : Int) : List Int :=
  admins.filter (fun a => a != user_id) ++ [user_id]

/-- `remove_admin` (src/bot.py lines 158-162): `DELETE FROM admins
WHERE user_id = ?`. -/
def remove_admin (admins : List Int) (user_id : Int) : List Int :=
  admins.filter (fun a => a != user_id)

/-- `is_admin` (src/bot.py lines 171-177): returns True immediately
when `OWNER_ID` is truthy (non-None and non-zero) and equals the query
id, otherwise consults the `admins` table. -/
def is_admin (admins : List Int) (user_id : Int) : Bool :=
  match OWNER_ID with
  | some oid => if oid ≠ 0 ∧ user_id = oid then true else admins.contains user_id
  | none => admins.contains user_id

/-- Outcome of one `bot.send_message` call inside the broadcast loop:
either it returns, or it raises an exception carrying a cause. -/
inductive SendResult where
  | ok
  | failed (cause : String)
deriving DecidableEq

/-- Whether a delivery attempt succeeded. -/
def isOk : SendResult → Bool
  | SendResult.ok => true
  | SendResult.failed _ => false

/-- Observable actions of the broadcast loop, in order: a
`bot.send_message` attempt (with the delivered text), and a
`time.sleep(BROADCAST_DELAY_SEC)` pacing call. -/
inductive Event where
  | attempt (user_id : Int) (text : String)
  | sleepPacing
deriving DecidableEq

/-- Running state of one `_do_broadcast` loop: the `sent` counter, the
`logger.warning` lines emitted so far (recipient id and cause), and the
observable events so far. -/
structure LoopAcc where
  sent : Nat
  log : List (Int × String)
  events : List Event
deriving DecidableEq

/-- One iteration of the `for (user_id,) in rows` loop of
`_do_broadcast` (src/bot.py lines 546-552): try to send; on success
increment `sent`, on exception append a warning with the recipient id
and the cause; in both cases sleep the pacing interval. -/
def loopStep (send : Int → SendResult) (text : String) (acc : LoopAcc) (user_id : Int) : LoopAcc :=
  match send user_id with
  | SendResult.ok =>
      { acc with
        sent := acc.sent + 1,
        events := acc.events ++ [Event.attempt user_id text, Event.sleepPacing] }
  | SendResult.failed cause =>
      { acc with
        log := acc.log ++ [(user_id, cause)],
        events := acc.events ++ [Event.attempt user_id text, Event.sleepPacing] }

/-- The whole delivery loop of `_do_broadcast`, starting from
`sent = 0` with nothing logged. -/
def runLoop (send : Int → SendResult) (text : String) (rows : List Int) : LoopAcc :=
  rows.foldl (loopStep send text) ⟨0, [], []⟩

/-- Python string slicing `s[:n]`: the first `n` code points. -/
def strTake (s : String) (n : Nat) : String := ⟨s.data.take n⟩

/-- Payload selection of `broadcast_cmd` (src/bot.py lines 519-526).
`reply` is the replied-to message as its `(text, caption)` pair (the
empty string standing for an absent field, matching Python falsiness);
`args` is `context.args`.  Returns `none` when the handler replies with
the usage message and creates no job. -/
def chooseText (reply : Option (String × String)) (args : List String) : Option String :=
  match reply with
  | some (t, c) =>
      if t ≠ "" ∨ c ≠ "" then some (if t ≠ "" then t else c)
      else if args = [] then none else some (String.intercalate " " args)
  | none => if args = [] then none else some (String.intercalate " " args)

/-- `broadcast_cmd` (src/bot.py lines 514-536) after the owner check:
choose the payload, and if one exists insert a `broadcasts` row with
`text = btext[:4000]` and `sent_count = 0`, acknowledge with the new
job id, and hand `(bid, btext, user.id)` — with the UNtruncated
`btext` — to the `_do_broadcast` thread.  The second component of the
result is `none` on rejection, otherwise the `(bid, btext)` pair passed
to the background thread. -/
def broadcast_cmd (ts : Int) (from_user : Int) (reply : Option (String × String))
    (args : List String) (st : DBState) : DBState × Option (Nat × String) :=
  match chooseText reply args with
  | none => (st, none)
  | some btext =>
      let bid := st.nextBroadcastId
      ({ st with
          broadcasts := st.broadcasts ++ [⟨bid, ts, from_user, strTake btext 4000, 0⟩],
          nextBroadcastId := bid + 1 },
        some (bid, btext))

/-- `UPDATE broadcasts SET sent_count = ? WHERE id = ?`
(src/bot.py line 555): every row whose `id` matches gets the new
`sent_count`, all other rows are untouched. -/
def finalizeRow (bid : Nat) (n : Nat) : List BroadcastRow → List BroadcastRow
  | [] => []
  | r :: rest =>
      (if r.id == bid then { r with sent_count := n } else r) :: finalizeRow bid n rest

/-- `SELECT ... FROM broadcasts WHERE id = bid` on the model. -/
def lookupBroadcast (l : List BroadcastRow) (bid : Nat) : Option BroadcastRow :=
  l.find? (fun r => r.id == bid)

/-- `_do_broadcast` (src/bot.py lines 538-557) with every database
operation succeeding: snapshot `SELECT user_id FROM users`, run the
delivery loop, then write the final `sent` back to the job row.
Returns the updated database and the loop's accumulated state. -/
def do_broadcast (send : Int → SendResult) (bid : Nat) (text : String)
    (st : DBState) : DBState × LoopAcc :=
  let rows := st.users
  let acc := runLoop send text rows
  ({ st with broadcasts := finalizeRow bid acc.sent st.broadcasts }, acc)

/-- Exception flow of the `_do_broadcast` task body: only the send
inside the loop is wrapped in `try/except`; the snapshot read
(lines 539-542) and the finalize write (lines 553-556) are not, so an
exception in either escapes the function (modelled as `Except.error`). -/
def broadcastTaskOutcome (snapshotRead : Except String (List Int))
    (send : Int → SendResult) (text : String)
    (finalizeWrite : Except String Unit) : Except String LoopAcc :=
  match snapshotRead with
  | Except.error e => Except.error e
  | Except.ok rows =>
      match finalizeWrite with
      | Except.error e => Except.error e
      | Except.ok _ => Except.ok (runLoop send text rows)

/-- The value of the `sent` counter after one loop iteration. -/
def counterStep (send : Int → SendResult) (s : Nat) (user_id : Int) : Nat :=
  match send user_id with
  | SendResult.ok => s + 1
  | SendResult.failed _ => s

/-- The successive values of the `sent` counter during the loop
(initial 0 included). -/
def counterStates (send : Int → SendResult) (rows : List Int) : List Nat :=
  rows.scanl (counterStep send) 0

/-- Number of successful deliveries among `rows`. -/
def sentCount (send : Int → SendResult) (rows : List Int) : Nat :=
  rows.countP (fun u => isOk (send u))

/-- The warning log produced by the loop over `rows`. -/
def failLog (send : Int → SendResult) : List Int → List (Int × String)
  | [] => []
  | u :: rest =>
      match send u with
      | SendResult.ok => failLog send rest
      | SendResult.failed c => (u, c) :: failLog send rest

/-- The event trace of the loop over `rows`: one attempt then one
pacing sleep per recipient. -/
def eventsOf (text : String) : List Int → List Event
  | [] => []
  | u :: rest => Event.attempt u text :: Event.sleepPacing :: eventsOf text rest

/-- Number of pacing sleeps in an event trace. -/
def countSleeps (evs : List Event) : Nat :=
  evs.countP (fun e => match e with | Event.sleepPacing => true | _ => false)

/-! ### Helper lemmas about the loop -/

theorem foldl_loopStep (send : Int → SendResult) (text : String) (rows : List Int) :
    ∀ acc : LoopAcc,
      rows.foldl (loopStep send text) acc =
        ⟨acc.sent + sentCount send rows, acc.log ++ failLog send rows,
          acc.events ++ eventsOf text rows⟩ := by
  induction rows with
  | nil => intro acc; simp [sentCount, failLog, eventsOf]
  | cons u rest ih =>
      intro acc
      cases h : send u with
      | ok =>
          simp only [List.foldl_cons, loopStep, h]
          rw [ih]
          simp [sentCount, failLog, eventsOf, List.countP_cons, isOk, h]
          omega
      | failed cause =>
          simp only [List.foldl_cons, loopStep, h]
          rw [ih]
          simp [sentCount, failLog, eventsOf, List.countP_cons, isOk, h]

theorem runLoop_eq (send : Int → SendResult) (text : String) (rows : List Int) :
    runLoop send text rows =
      ⟨sentCount send rows, failLog send rows, eventsOf text rows⟩ := by
  simpa [runLoop] using foldl_loopStep send text rows ⟨0, [], []⟩

theorem sentCount_le_length (send : Int → SendResult) (rows : List Int) :
    sentCount send rows ≤ rows.length :=
  List.countP_le_length _

theorem sentCount_eq_length_of_ok (send : Int → SendResult) (rows : List Int)
    (h : ∀ u ∈ rows, send u = SendResult.ok) :
    sentCount send rows = rows.length := by
  rw [sentCount, List.countP_eq_length]
  intro u hu
  rw [h u hu]
  rfl

theorem failLog_eq_nil_of_ok (send : Int → SendResult) (rows : List Int)
    (h : ∀ u ∈ rows, send u = SendResult.ok) :
    failLog send rows = [] := by
  induction rows with
  | nil => rfl
  | cons u rest ih =>
      rw [failLog, h u (List.mem_cons_self u rest)]
      exact ih fun v hv => h v (List.mem_cons_of_mem u hv)

theorem sentCount_append (send : Int → SendResult) (l₁ l₂ : List Int) :
    sentCount send (l₁ ++ l₂) = sentCount send l₁ + sentCount send l₂ := by
  simp [sentCount, List.countP_append]

theorem failLog_append (send : Int → SendResult) (l₁ l₂ : List Int) :
    failLog send (l₁ ++ l₂) = failLog send l₁ ++ failLog send l₂ := by
  induction l₁ with
  | nil => rfl
  | cons u rest ih =>
      cases h : send u with
      | ok => simp [failLog, h, ih]
      | failed cause => simp [failLog, h, ih]

theorem eventsOf_append (text : String) (l₁ l₂ : List Int) :
    eventsOf text (l₁ ++ l₂) = eventsOf text l₁ ++ eventsOf text l₂ := by
  induction l₁ with
  | nil => rfl
  | cons u rest ih => simp [eventsOf, ih]

theorem countSleeps_eventsOf (text : String) (rows : List Int) :
    countSleeps (eventsOf text rows) = rows.length := by
  induction rows with
  | nil => rfl
  | cons u rest ih => simp [eventsOf, countSleeps, List.countP_cons] at ih ⊢; omega

/-! ### Helper lemmas about the job ledger -/

theorem lookup_finalize (l : List BroadcastRow) (bid : Nat) (n : Nat) (r0 : BroadcastRow)
    (h : lookupBroadcast l bid = some r0) :
    lookupBroadcast (finalizeRow bid n l) bid = some { r0 with sent_count := n } := by
  induction l with
  | nil => simp [lookupBroadcast] at h
  | cons r rest ih =>
      rw [lookupBroadcast, List.find?_cons] at h
      cases hr : (r.id == bid) with
      | true =>
          rw [hr] at h
          cases h
          simp [lookupBroadcast, finalizeRow, List.find?_cons, hr]
      | false =>
          rw [hr] at h
          have ihh := ih h
          rw [finalizeRow, lookupBroadcast, List.find?_cons]
          simp only [hr, Bool.false_eq_true, if_false]
          exact ihh

theorem lookup_append_fresh (l : List BroadcastRow) (row : BroadcastRow)
    (h : ∀ r ∈ l, r.id ≠ row.id) :
    lookupBroadcast (l ++ [row]) row.id = some row := by
  induction l with
  | nil => simp [lookupBroadcast, List.find?_cons]
  | cons r rest ih =>
      have hr : (r.id == row.id) = false := by
        simpa using h r (List.mem_cons_self r rest)
      rw [lookupBroadcast, List.cons_append, List.find?_cons, hr]
      exact ih fun s hs => h s (List.mem_cons_of_mem r hs)

/-! ### Helper lemmas about the counter trace -/

theorem counterStep_ge (send : Int → SendResult) (s : Nat) (u : Int) :
    s ≤ counterStep send s u := by
  cases h : send u <;> simp [counterStep, h]

theorem counterStep_le (send : Int → SendResult) (s : Nat) (u : Int) :
    counterStep send s u ≤ s + 1 := by
  cases h : send u <;> simp [counterStep, h]

theorem foldl_counterStep (send : Int → SendResult) (rows : List Int) :
    ∀ a : Nat, rows.foldl (counterStep send) a = a + sentCount send rows := by
  induction rows with
  | nil => intro a; simp [sentCount]
  | cons u rest ih =>
      intro a
      cases h : send u with
      | ok =>
          simp only [List.foldl_cons, counterStep, h]
          rw [ih]
          simp [sentCount, List.countP_cons, isOk, h]
          omega
      | failed cause =>
          simp only [List.foldl_cons, counterStep, h]
          rw [ih]
          simp [sentCount, List.countP_cons, isOk, h]

theorem scanl_head (f : Nat → Int → Nat) (a : Nat) (rows : List Int) :
    (rows.scanl f a).head? = some a := by
  cases rows <;> simp [List.scanl]

theorem scanl_chain_le (send : Int → SendResult) (rows : List Int) :
    ∀ a : Nat, List.Chain' (· ≤ ·) (rows.scanl (counterStep send) a) := by
  induction rows with
  | nil => intro a; simp [List.scanl]
  | cons u rest ih =>
      intro a
      rw [List.scanl]
      rw [List.chain'_cons']
      refine ⟨?_, ih (counterStep send a u)⟩
      intro h hh
      rw [scanl_head] at hh
      cases hh
      exact counterStep_ge send a u

theorem scanl_mem_le (send : Int → SendResult) (rows : List Int) :
    ∀ a : Nat, ∀ x ∈ rows.scanl (counterStep send) a, x ≤ a + rows.length := by
  induction rows with
  | nil =>
      intro a x hx
      simp [List.scanl] at hx
      omega
  | cons u rest ih =>
      intro a x hx
      rw [List.scanl, List.mem_cons] at hx
      rcases hx with hx | hx
      · simp [hx]
      · have h1 := ih (counterStep send a u) x hx
        have h2 := counterStep_le send a u
        simp only [List.length_cons]
        omega

theorem scanl_getLast (send : Int → SendResult) (rows : List Int) :
    ∀ a : Nat,
      (rows.scanl (counterStep send) a).getLast? = some (rows.foldl (counterStep send) a) := by
  induction rows with
  | nil => intro a; simp [List.scanl]
  | cons u rest ih =>
      intro a
      rw [List.scanl, List.foldl_cons]
      have h := ih (counterStep send a u)
      cases hs : rest.scanl (counterStep send) (counterStep send a u) with
      | nil =>
          have := congrArg List.length hs
          simp [List.length_scanl] at this
      | cons b t =>
          rw [hs] at h
          rw [List.getLast?_cons_cons]
          exact h

theorem scanl_all_ok_eq_range (send : Int → SendResult) (rows : List Int)
    (hok : ∀ u ∈ rows, send u = SendResult.ok) :
    ∀ a : Nat,
      rows.scanl (counterStep send) a = (List.range (rows.length + 1)).map (a + ·) := by
  induction rows with
  | nil => intro a; simp [List.scanl, List.range_succ]
  | cons u rest ih =>
      intro a
      have hu : counterStep send a u = a + 1 := by
        rw [counterStep, hok u (List.mem_cons_self u rest)]
      rw [List.scanl, hu, ih (fun v hv => hok v (List.mem_cons_of_mem u hv)) (a + 1),
        List.length_cons]
      conv_rhs => rw [List.range_succ_eq_map]
      rw [List.map_cons, List.map_map, Nat.add_zero]
      congr 1
      apply List.map_congr_left
      intro x _
      simp only [Function.comp_apply]
      omega

/-! ### Concrete inputs used by the witnesses and counterexamples -/

/-- A small concrete database: three known users and one pending
broadcast job with id 1. -/
def st3 : DBState := ⟨[1, 2, 3], [⟨1, 0, 42, "hi", 0⟩], 2⟩

/-- An empty concrete database. -/
def st0 : DBState := ⟨[], [], 1⟩

/-- A delivery oracle that fails exactly for user 2. -/
def sendFail2 : Int → SendResult :=
  fun u => if u = 2 then SendResult.failed "Forbidden: bot was blocked" else SendResult.ok

/-! ### Claims -/

/-- C1: for every broadcast run over a recipient snapshot in which every
delivery attempt succeeds, the delivered counter is incremented once per
recipient (its successive values are 0, 1, ..., N) and the job record is
finalized with delivered-count equal to the snapshot size N. -/
theorem broadcast_all_ok_counts_snapshot (send : Int → SendResult) (st : DBState)
    (bid : Nat) (text : String) (r0 : BroadcastRow)
    (hok : ∀ u ∈ st.users, send u = SendResult.ok)
    (hrow : lookupBroadcast st.broadcasts bid = some r0) :
    (do_broadcast send bid text st).2.sent = st.users.length ∧
    counterStates send st.users = List.range (st.users.length + 1) ∧
    lookupBroadcast (do_broadcast send bid text st).1.broadcasts bid =
      some { r0 with sent_count := st.users.length } := by
  have h2 : (do_broadcast send bid text st).2 = runLoop send text st.users := rfl
  have hsc : sentCount send st.users = st.users.length :=
    sentCount_eq_length_of_ok send st.users hok
  refine ⟨?_, ?_, ?_⟩
  · rw [h2, runLoop_eq]
    exact hsc
  · rw [counterStates, scanl_all_ok_eq_range send st.users hok 0]
    have hf : (fun x => 0 + x) = (id : Nat → Nat) := by funext x; simp
    rw [hf, List.map_id]
  · show lookupBroadcast
        (finalizeRow bid (runLoop send text st.users).sent st.broadcasts) bid = _
    rw [runLoop_eq]
    simp only
    rw [hsc]
    exact lookup_finalize st.broadcasts bid st.users.length r0 hrow

/-- Witness for C1 at a concrete input: three recipients, all sends
succeed, the job row ends at delivered-count 3. -/
theorem broadcast_all_ok_counts_snapshot_witness :
    (do_broadcast (fun _ => SendResult.ok) 1 "hi" st3).2.sent = 3 ∧
    counterStates (fun _ => SendResult.ok) st3.users = [0, 1, 2, 3] ∧
    lookupBroadcast (do_broadcast (fun _ => SendResult.ok) 1 "hi" st3).1.broadcasts 1 =
      some ⟨1, 0, 42, "hi", 3⟩ := by
  have h := broadcast_all_ok_counts_snapshot (fun _ => SendResult.ok) st3 1 "hi"
    ⟨1, 0, 42, "hi", 0⟩ (by decide) (by decide)
  simpa [st3, List.range_succ] using h

/-- C2: for every broadcast run in which delivery fails for exactly one
recipient `uk` (with the given cause) and succeeds for all others, the
failure is logged with the recipient identifier and cause, the loop still
processes every recipient of the snapshot, and the job record is
finalized with delivered-count N−1. -/
theorem broadcast_single_failure_isolated (send : Int → SendResult) (st : DBState)
    (bid : Nat) (text : String) (r0 : BroadcastRow) (pre post : List Int)
    (uk : Int) (cause : String)
    (hsplit : st.users = pre ++ uk :: post)
    (hfail : send uk = SendResult.failed cause)
    (hok : ∀ u ∈ pre ++ post, send u = SendResult.ok)
    (hrow : lookupBroadcast st.broadcasts bid = some r0) :
    (do_broadcast send bid text st).2.sent + 1 = st.users.length ∧
    (do_broadcast send bid text st).2.log = [(uk, cause)] ∧
    (do_broadcast send bid text st).2.events = eventsOf text st.users ∧
    lookupBroadcast (do_broadcast send bid text st).1.broadcasts bid =
      some { r0 with sent_count := st.users.length - 1 } := by
  have h2 : (do_broadcast send bid text st).2 = runLoop send text st.users := rfl
  have hokpre : ∀ u ∈ pre, send u = SendResult.ok :=
    fun u hu => hok u (List.mem_append_left _ hu)
  have hokpost : ∀ u ∈ post, send u = SendResult.ok :=
    fun u hu => hok u (List.mem_append_right _ hu)
  have hsc : sentCount send st.users = pre.length + post.length := by
    rw [hsplit, sentCount_append, sentCount_eq_length_of_ok send pre hokpre]
    have hcons : sentCount send (uk :: post) = sentCount send post := by
      rw [sentCount, List.countP_cons, sentCount]
      simp [isOk, hfail]
    rw [hcons, sentCount_eq_length_of_ok send post hokpost]
  have hlen : st.users.length = pre.length + post.length + 1 := by
    rw [hsplit]
    simp
    omega
  have hfl : failLog send st.users = [(uk, cause)] := by
    rw [hsplit, failLog_append, failLog_eq_nil_of_ok send pre hokpre, List.nil_append]
    simp [failLog, hfail, failLog_eq_nil_of_ok send post hokpost]
  refine ⟨?_, ?_, ?_, ?_⟩
  · rw [h2, runLoop_eq]
    simp only
    omega
  · rw [h2, runLoop_eq]
    exact hfl
  · rw [h2, runLoop_eq]
  · show lookupBroadcast
        (finalizeRow bid (runLoop send text st.users).sent st.broadcasts) bid = _
    rw [runLoop_eq]
    simp only
    rw [hsc, show pre.length + post.length = st.users.length - 1 by omega]
    exact lookup_finalize st.broadcasts bid (st.users.length - 1) r0 hrow

/-- Witness for C2 at a concrete input: recipients 1, 2, 3, delivery to
user 2 raises; the failure is logged with id and cause, all three
recipients are processed, and the job ends at delivered-count 2. -/
theorem broadcast_single_failure_isolated_witness :
    (do_broadcast sendFail2 1 "hi" st3).2.sent + 1 = 3 ∧
    (do_broadcast sendFail2 1 "hi" st3).2.log =
      [(2, "Forbidden: bot was blocked")] ∧
    (do_broadcast sendFail2 1 "hi" st3).2.events = eventsOf "hi" st3.users ∧
    lookupBroadcast (do_broadcast sendFail2 1 "hi" st3).1.broadcasts 1 =
      some ⟨1, 0, 42, "hi", 2⟩ := by
  have h := broadcast_single_failure_isolated sendFail2 st3 1 "hi"
    ⟨1, 0, 42, "hi", 0⟩ [1] [3] 2 "Forbidden: bot was blocked"
    (by decide) (by decide) (by decide) (by decide)
  simpa [st3] using h

/-- C5: in every broadcast run the delivered counter starts at 0, is
monotonically non-decreasing throughout the run, never exceeds the size
of the snapshot taken at run start, and the value written back by the
finalize step is the counter's last value, itself at most the snapshot
size. -/
theorem broadcast_counter_monotone_bounded (send : Int → SendResult) (st : DBState)
    (bid : Nat) (text : String) :
    (counterStates send st.users).head? = some 0 ∧
    List.Chain' (· ≤ ·) (counterStates send st.users) ∧
    (∀ x ∈ counterStates send st.users, x ≤ st.users.length) ∧
    (counterStates send st.users).getLast? =
      some (do_broadcast send bid text st).2.sent ∧
    (do_broadcast send bid text st).2.sent ≤ st.users.length ∧
    (do_broadcast send bid text st).1.broadcasts =
      finalizeRow bid ((do_broadcast send bid text st).2.sent) st.broadcasts := by
  have h2 : (do_broadcast send bid text st).2 = runLoop send text st.users := rfl
  refine ⟨scanl_head _ _ _, scanl_chain_le send st.users 0, ?_, ?_, ?_, rfl⟩
  · intro x hx
    simpa using scanl_mem_le send st.users 0 x hx
  · rw [counterStates, scanl_getLast send st.users 0, foldl_counterStep,
      h2, runLoop_eq]
    simp
  · rw [h2, runLoop_eq]
    simpa using sentCount_le_length send st.users

/-- Witness for C5 at a concrete input: one failing delivery among
three; the counter trace is 0, 1, 1, 2, monotone and bounded by 3, and
its last value 2 is what finalize writes. -/
theorem broadcast_counter_monotone_bounded_witness :
    counterStates sendFail2 st3.users = [0, 1, 1, 2] ∧
    List.Chain' (· ≤ ·) (counterStates sendFail2 st3.users) ∧
    (counterStates sendFail2 st3.users).getLast? =
      some (do_broadcast sendFail2 1 "hi" st3).2.sent ∧
    (do_broadcast sendFail2 1 "hi" st3).2.sent ≤ 3 := by
  have h := broadcast_counter_monotone_bounded sendFail2 st3 1 "hi"
  exact ⟨by decide, h.2.1, h.2.2.2.1, by simpa [st3] using h.2.2.2.2.1⟩

/-- C6: in every broadcast run a pacing sleep is performed after each
recipient's delivery attempt regardless of its outcome (the event trace
is attempt, sleep, attempt, sleep, ...), so a run over N ≥ 2 recipients
performs N pacing sleeps, in particular at least N−1; the configured
interval `BROADCAST_DELAY_SEC` is 120 ms. -/
theorem broadcast_pacing_every_attempt (send : Int → SendResult) (st : DBState)
    (bid : Nat) (text : String) (hN : 2 ≤ st.users.length) :
    (do_broadcast send bid text st).2.events = eventsOf text st.users ∧
    countSleeps (do_broadcast send bid text st).2.events = st.users.length ∧
    st.users.length - 1 ≤ countSleeps (do_broadcast send bid text st).2.events ∧
    BROADCAST_DELAY_SEC * 1000 = 120 := by
  have h2 : (do_broadcast send bid text st).2 = runLoop send text st.users := rfl
  have he : (do_broadcast send bid text st).2.events = eventsOf text st.users := by
    rw [h2, runLoop_eq]
  refine ⟨he, ?_, ?_, ?_⟩
  · rw [he, countSleeps_eventsOf]
  · rw [he, countSleeps_eventsOf]
    omega
  · rw [BROADCAST_DELAY_SEC]
    norm_num

/-- Witness for C6 at a concrete input: three recipients with a failing
delivery in the middle; three pacing sleeps are performed, one after
every attempt. -/
theorem broadcast_pacing_every_attempt_witness :
    (do_broadcast sendFail2 1 "hi" st3).2.events =
      [Event.attempt 1 "hi", Event.sleepPacing, Event.attempt 2 "hi",
        Event.sleepPacing, Event.attempt 3 "hi", Event.sleepPacing] ∧
    countSleeps (do_broadcast sendFail2 1 "hi" st3).2.events = 3 := by
  have h := broadcast_pacing_every_attempt sendFail2 st3 1 "hi" (by decide)
  exact ⟨by decide, by simpa [st3] using h.2.1⟩

/-- C3 counterexample: a submission replying to a message whose text is
a single space — a payload that is whitespace-only, hence empty after
trimming — is NOT rejected: `broadcast_cmd` performs no trimming, so a
broadcasts row is created and the background send is started. -/
theorem whitespace_reply_creates_job :
    (" " : String) ≠ "" ∧
    (" " : String).data.all Char.isWhitespace = true ∧
    (broadcast_cmd 0 42 (some (" ", "")) [] st0).2 = some (1, " ") ∧
    (broadcast_cmd 0 42 (some (" ", "")) [] st0).1.broadcasts =
      [⟨1, 0, 42, strTake " " 4000, 0⟩] := by
  refine ⟨by decide, by decide, rfl, rfl⟩

/-- C3 amended: `broadcast_cmd` rejects synchronously (usage reply, no
broadcasts row created, database unchanged) exactly when the submission
has no payload source at all: no replied-to message with a non-empty
text or caption, and no command arguments.  No trimming is performed,
so a whitespace-only replied text is accepted as a payload. -/
theorem broadcast_reject_iff_no_source (ts from_user : Int)
    (reply : Option (String × String)) (args : List String) (st : DBState) :
    (chooseText reply args = none ↔
      args = [] ∧ ∀ t c, reply = some (t, c) → t = "" ∧ c = "") ∧
    (chooseText reply args = none →
      broadcast_cmd ts from_user reply args st = (st, none)) := by
  constructor
  · cases reply with
    | none =>
        by_cases ha : args = [] <;> simp [chooseText, ha]
    | some tc =>
        obtain ⟨t, c⟩ := tc
        by_cases h1 : t = "" <;> by_cases h2 : c = "" <;>
          by_cases ha : args = [] <;>
          simp [chooseText, h1, h2, ha]
  · intro h
    simp only [broadcast_cmd, h]

/-- Witness for the amended C3: no reply and no arguments is rejected
with the database unchanged. -/
theorem broadcast_reject_iff_no_source_witness :
    broadcast_cmd 0 42 none [] st0 = (st0, none) :=
  (broadcast_reject_iff_no_source 0 42 none [] st0).2 (by decide)

/-- A 4001-character payload, one unit over the truncation cap. -/
def longText : String := ⟨List.replicate 4001 'a'⟩

/-- C4 counterexample: for a 4001-character submission, the persisted
payload is the text truncated to 4000 units, but the text handed to the
background delivery thread (second component of the result) is the
untruncated text — the delivered text is NOT the persisted (truncated)
payload. -/
theorem delivered_text_not_truncated :
    (broadcast_cmd 0 42 (some (longText, "")) [] st0).2 = some (1, longText) ∧
    (broadcast_cmd 0 42 (some (longText, "")) [] st0).1.broadcasts =
      [⟨1, 0, 42, strTake longText 4000, 0⟩] ∧
    strTake longText 4000 ≠ longText := by
  refine ⟨rfl, rfl, ?_⟩
  intro h
  have hl := congrArg String.length h
  simp only [strTake, longText, String.length] at hl
  rw [List.length_take, List.length_replicate] at hl
  omega

/-- C4 amended: the persisted payload is the chosen text truncated to
the 4000-unit cap, while the text handed to the background delivery
thread is the UNtruncated chosen text; the two coincide exactly when
the submission is within the cap. -/
theorem persisted_truncated_delivered_untruncated (ts from_user : Int)
    (reply : Option (String × String)) (args : List String) (st : DBState)
    (btext : String) (h : chooseText reply args = some btext) :
    (broadcast_cmd ts from_user reply args st).2 = some (st.nextBroadcastId, btext) ∧
    (broadcast_cmd ts from_user reply args st).1.broadcasts =
      st.broadcasts ++ [⟨st.nextBroadcastId, ts, from_user, strTake btext 4000, 0⟩] ∧
    (btext.length ≤ 4000 → strTake btext 4000 = btext) := by
  refine ⟨?_, ?_, ?_⟩
  · simp only [broadcast_cmd, h]
  · simp only [broadcast_cmd, h]
  · intro hlen
    rw [strTake]
    have ht : btext.data.take 4000 = btext.data := List.take_of_length_le hlen
    rw [ht]

/-- Witness for the amended C4: a short two-word submission is persisted
and delivered unchanged. -/
theorem persisted_truncated_delivered_untruncated_witness :
    (broadcast_cmd 7 42 none ["hello", "world"] st0).2 = some (1, "hello world") ∧
    (broadcast_cmd 7 42 none ["hello", "world"] st0).1.broadcasts =
      [⟨1, 7, 42, strTake "hello world" 4000, 0⟩] ∧
    strTake "hello world" 4000 = "hello world" := by
  have h := persisted_truncated_delivered_untruncated 7 42 none ["hello", "world"]
    st0 "hello world" (by decide)
  exact ⟨by simpa [st0] using h.1, by simpa [st0] using h.2.1, h.2.2 (by decide)⟩

/-- C7 counterexample: a failure of the snapshot read is NOT caught
inside the broadcast task: `_do_broadcast` wraps only the send call in
`try/except`, so an exception raised by the `SELECT user_id FROM users`
read escapes the task body uncaught. -/
theorem snapshot_failure_escapes_task :
    broadcastTaskOutcome (Except.error "database is locked")
      (fun _ => SendResult.ok) "hi" (Except.ok ()) =
      Except.error "database is locked" := rfl

/-- C7 amended: per-recipient delivery failures are confined to the
task — when the snapshot read and the finalize write succeed, the task
body returns normally whatever the delivery outcomes — but a failure of
the snapshot read or of the finalize write escapes the task body
uncaught (it is only never propagated to the submitter because the task
runs on a detached daemon thread). -/
theorem delivery_failures_confined (rows : List Int) (send : Int → SendResult)
    (text : String) :
    broadcastTaskOutcome (Except.ok rows) send text (Except.ok ()) =
      Except.ok (runLoop send text rows) ∧
    (∀ e, broadcastTaskOutcome (Except.error e) send text (Except.ok ()) =
      Except.error e) ∧
    (∀ e, broadcastTaskOutcome (Except.ok rows) send text (Except.error e) =
      Except.error e) :=
  ⟨rfl, fun _ => rfl, fun _ => rfl⟩

/-- C8 counterexample: the `broadcasts` table has no status column at
all, so no job record ever exists "with status pending": the schema
records only id, timestamp, initiator, text and sent count. -/
theorem no_status_column : ¬ ("status" ∈ broadcastsColumns) := by
  decide

/-- C8 amended: for every accepted (non-empty-source) payload,
`broadcast_cmd` returns the new job id to the submitter and, before any
delivery has happened, the ledger holds a row under that id with the
truncated payload and delivered-count 0 (pending is implicit: the
background run has not yet touched the row — there is no status
column). -/
theorem submit_creates_record_count_zero (ts from_user : Int)
    (reply : Option (String × String)) (args : List String) (st : DBState)
    (btext : String) (h : chooseText reply args = some btext)
    (hfresh : ∀ r ∈ st.broadcasts, r.id ≠ st.nextBroadcastId) :
    (broadcast_cmd ts from_user reply args st).2 = some (st.nextBroadcastId, btext) ∧
    lookupBroadcast (broadcast_cmd ts from_user reply args st).1.broadcasts
        st.nextBroadcastId =
      some ⟨st.nextBroadcastId, ts, from_user, strTake btext 4000, 0⟩ := by
  constructor
  · simp only [broadcast_cmd, h]
  · have hb : (broadcast_cmd ts from_user reply args st).1.broadcasts =
        st.broadcasts ++ [⟨st.nextBroadcastId, ts, from_user, strTake btext 4000, 0⟩] := by
      simp only [broadcast_cmd, h]
    rw [hb]
    exact lookup_append_fresh st.broadcasts _ hfresh

/-- Witness for the amended C8: submitting "Hello" against the empty
database returns job id 1 and the ledger then holds row 1 with
delivered-count 0. -/
theorem submit_creates_record_count_zero_witness :
    (broadcast_cmd 5 42 none ["Hello"] st0).2 = some (1, "Hello") ∧
    lookupBroadcast (broadcast_cmd 5 42 none ["Hello"] st0).1.broadcasts 1 =
      some ⟨1, 5, 42, strTake "Hello" 4000, 0⟩ := by
  have h := submit_creates_record_count_zero 5 42 none ["Hello"] st0 "Hello"
    (by decide) (by decide)
  exact ⟨by simpa [st0] using h.1, by simpa [st0] using h.2⟩

/-- C9: the owner is unconditionally an admin: `is_admin` answers true
for the owner id against every admins-table state — in particular after
`remove_admin` has deleted the owner's row from the table, a state in
which the owner is genuinely absent from the table. -/
theorem owner_always_admin (admins : List Int) :
    is_admin admins owner_id_val = true ∧
    is_admin (remove_admin admins owner_id_val) owner_id_val = true ∧
    owner_id_val ∉ remove_admin admins owner_id_val ∧
    OWNER_ID = some owner_id_val := by
  refine ⟨?_, ?_, ?_, rfl⟩
  · simp [is_admin, OWNER_ID, owner_id_val]
  · simp [is_admin, OWNER_ID, owner_id_val]
  · simp [remove_admin, List.mem_filter]

/-- C10: when the submission replies to a message carrying a non-empty
text or caption, that text (or the caption when the text is absent) is
chosen as the broadcast payload and the command arguments are ignored
entirely; the arguments are consulted only when there is no such
replied message. -/
theorem reply_text_overrides_args (ts from_user : Int) (t c : String)
    (args args2 : List String) (st : DBState) (h : t ≠ "" ∨ c ≠ "") :
    chooseText (some (t, c)) args = chooseText (some (t, c)) args2 ∧
    chooseText (some (t, c)) args = some (if t ≠ "" then t else c) ∧
    (broadcast_cmd ts from_user (some (t, c)) args st).2 =
      some (st.nextBroadcastId, if t ≠ "" then t else c) ∧
    (args ≠ [] →
      chooseText (some ("", "")) args = some (String.intercalate " " args) ∧
      chooseText none args = some (String.intercalate " " args)) := by
  have hc : ∀ as : List String,
      chooseText (some (t, c)) as = some (if t ≠ "" then t else c) := by
    intro as
    simp only [chooseText]
    rw [if_pos h]
  refine ⟨by rw [hc args, hc args2], hc args, ?_, ?_⟩
  · simp only [broadcast_cmd, hc args]
  · intro ha
    constructor <;> simp [chooseText, ha]

/-- Witness for C10: replying to a message with text "hello" makes
"hello" the payload whether the command line carries arguments or not,
and the caption is not used. -/
theorem reply_text_overrides_args_witness :
    chooseText (some ("hello", "cap")) ["x"] = chooseText (some ("hello", "cap")) [] ∧
    chooseText (some ("hello", "cap")) ["x"] = some "hello" ∧
    (broadcast_cmd 0 42 (some ("hello", "cap")) ["x"] st0).2 = some (1, "hello") := by
  have h := reply_text_overrides_args 0 42 "hello" "cap" ["x"] [] st0
    (Or.inl (by decide))
  exact ⟨h.1, by rw [h.2.1]; decide, by rw [h.2.2.1]; decide⟩

end TGBot
